import Mathlib

/-!
Verification of the mai-cli operation pipeline (parser, validators, plan
executor, reviewer, auto-fix loop) against its natural-language
specification.  The TypeScript sources are shallowly embedded: pure
functions become Lean functions, filesystem state becomes an explicit
association list of path/content pairs, asynchronous calls that may throw
become `Except`-valued functions, and external collaborators (the model,
the diff viewer, path resolution, the JSON5 library) become function
parameters or small executable models.

All string manipulation is implemented by structural recursion on
`List Char` so that every definition evaluates inside the kernel.
-/

namespace Mai

/-! ## String helpers mirroring the JavaScript primitives used by the code -/

/-- JavaScript `String.prototype.trim` whitespace set (the ECMA WhiteSpace
and LineTerminator code points that occur in practice). -/
def jsIsWhitespace (c : Char) : Bool :=
  c = ' ' || c = '\t' || c = '\n' || c = '\r' ||
  c = (Char.ofNat 11) || c = (Char.ofNat 12) || c = (Char.ofNat 160) ||
  c = (Char.ofNat 0x2028) || c = (Char.ofNat 0x2029) || c = (Char.ofNat 0xFEFF) ||
  c = (Char.ofNat 0x3000)

/-- JavaScript `str.trim()`. -/
def jsTrim (s : String) : String :=
  ((s.toList.dropWhile jsIsWhitespace).reverse.dropWhile jsIsWhitespace).reverse.asString

def splitNlAux : List Char → List Char → List (List Char)
  | [], acc => [acc.reverse]
  | c :: rest, acc =>
    if c = '\n' then acc.reverse :: splitNlAux rest []
    else splitNlAux rest (c :: acc)

/-- The lines a JavaScript `str.split('\n')` produces. -/
def splitLinesNl (s : String) : List String := (splitNlAux s.toList []).map List.asString

def joinNlChars : List (List Char) → List Char
  | [] => []
  | [l] => l
  | l :: ls => l ++ '\n' :: joinNlChars ls

/-- `lines.join('\n')`, as used throughout the source. -/
def joinNl (ls : List String) : String := (joinNlChars (ls.map String.toList)).asString

def leadsWith : List Char → List Char → Bool
  | [], _ => true
  | _, [] => false
  | a :: as, b :: bs => a = b && leadsWith as bs

/-- JavaScript `s.startsWith(p)`. -/
def strStartsWith (s p : String) : Bool := leadsWith p.toList s.toList

/-- JavaScript `s.endsWith(p)`. -/
def strEndsWith (s p : String) : Bool := leadsWith p.toList.reverse s.toList.reverse

/-- `s.substring(n)` / dropping the first `n` characters. -/
def strDrop (s : String) (n : Nat) : String := (s.toList.drop n).asString

/-- Dropping the last `n` characters. -/
def strDropRight (s : String) (n : Nat) : String :=
  (s.toList.take (s.toList.length - n)).asString

def replaceListFuel (pat repl : List Char) : Nat → List Char → List Char
  | _, [] => []
  | 0, s => s
  | n + 1, c :: rest =>
    if pat ≠ [] && leadsWith pat (c :: rest) then
      repl ++ replaceListFuel pat repl n ((c :: rest).drop pat.length)
    else
      c :: replaceListFuel pat repl n rest

/-- A global, left-to-right, non-overlapping replacement of every occurrence
of `pat` (JavaScript `replace` with the `g` flag and a plain pattern). -/
def jsReplaceAll (s pat repl : String) : String :=
  (replaceListFuel pat.toList repl.toList s.toList.length s.toList).asString

def countOccurFuel (pat : List Char) : Nat → List Char → Nat
  | _, [] => 0
  | 0, _ => 0
  | n + 1, c :: rest =>
    if pat ≠ [] && leadsWith pat (c :: rest) then
      1 + countOccurFuel pat n ((c :: rest).drop pat.length)
    else
      countOccurFuel pat n rest

/-- `s.split(pat).length - 1` for a nonempty separator: the number of
left-to-right non-overlapping occurrences of `pat` in `s`. -/
def countOccurrences (s pat : String) : Nat :=
  countOccurFuel pat.toList s.toList.length s.toList

def containsSubFuel (pat : List Char) : Nat → List Char → Bool
  | _, [] => pat = []
  | 0, _ => false
  | n + 1, c :: rest => leadsWith pat (c :: rest) || containsSubFuel pat n rest

/-- JavaScript `s.includes(pat)` (for nonempty `pat`). -/
def strContains (s pat : String) : Bool :=
  pat.toList = [] || containsSubFuel pat.toList s.toList.length s.toList

/-- `s.toLowerCase()` (exact on the ASCII identifiers it is applied to). -/
def strToLower (s : String) : String := (s.toList.map Char.toLower).asString

def indexOfCharAux (c : Char) : List Char → Nat → Option Nat
  | [], _ => none
  | a :: rest, i => if a = c then some i else indexOfCharAux c rest (i + 1)

/-- JavaScript `s.indexOf(c)` for a single character, `none` for `-1`. -/
def strIndexOfChar (s : String) (c : Char) : Option Nat := indexOfCharAux c s.toList 0

/-! ## operation-definitions.ts: delimiters and content escaping

`escapeDelimiters` applies `/^--- /gm → "\--- "` and then `/ ---$/gm → " ---\"`.
Both regexes act per line (we model lines as `'\n'`-separated; a multiline
`^`/`$` in JavaScript also fires at a bare `'\r'`, which no input below
contains).  `unescapeDelimiters` builds its regexes by interpolating the
one-character string `"\"` directly into the pattern source, so the regex
engine reads `^\--- ` as the anchor `^` followed by an identity-escaped
hyphen — i.e. the pattern `^--- `, replaced by `--- ` (no visible change) —
and reads ` ---\$` as the literal five-character substring `" ---$"` (the
dollar is escaped, hence not an end-of-line anchor), replaced globally by
`" ---"`. -/

def startDelimiter (identifier : String := "OPERATION") : String :=
  "--- " ++ identifier ++ " start ---"

def endDelimiter (identifier : String := "OPERATION") : String :=
  "--- " ++ identifier ++ " end ---"

/-- The character class `[A-Za-z0-9_]` of the delimiter regexes. -/
def isIdentChar (c : Char) : Bool :=
  ('A' ≤ c && c ≤ 'Z') || ('a' ≤ c && c ≤ 'z') || ('0' ≤ c && c ≤ '9') || c = '_'

/-- `startDelimiterRegex = /^--- ([A-Za-z0-9_]+) start ---$/` as a matcher
returning the captured identifier.  Because both ends of the pattern are
anchored, a line matches exactly when it is `"--- " ++ ident ++ " start ---"`
for a nonempty `ident` drawn from the character class. -/
def matchStartDelimiter (line : String) : Option String :=
  if strStartsWith line "--- " && strEndsWith line " start ---" &&
      line.toList.length ≥ 15 then
    let ident := strDropRight (strDrop line 4) 10
    if ident.toList ≠ [] && ident.toList.all isIdentChar then some ident else none
  else none

/-- `endDelimiterRegex = /^--- ([A-Za-z0-9_]+) end ---$/` as a matcher. -/
def matchEndDelimiter (line : String) : Option String :=
  if strStartsWith line "--- " && strEndsWith line " end ---" &&
      line.toList.length ≥ 13 then
    let ident := strDropRight (strDrop line 4) 8
    if ident.toList ≠ [] && ident.toList.all isIdentChar then some ident else none
  else none

/-- First `escapeDelimiters` pass, per line: `/^--- /gm` → `"\--- "`. -/
def escapePrefixLine (l : String) : String :=
  if strStartsWith l "--- " then "\\" ++ l else l

/-- Second `escapeDelimiters` pass, per line: `/ ---$/gm` → `" ---\"`. -/
def escapeSuffixLine (l : String) : String :=
  if strEndsWith l " ---" then l ++ "\\" else l

/-- `escapeDelimiters` from operation-definitions.ts. -/
def escapeDelimiters (content : String) : String :=
  joinNl ((splitLinesNl content).map (fun l => escapeSuffixLine (escapePrefixLine l)))

/-- First `unescapeDelimiters` pass: `new RegExp("^\--- ", 'gm')` — the
pattern `^--- ` (identity-escaped hyphen), replaced by `"--- "`, i.e. the
matched text is rewritten to itself. -/
def unescapePrefixLine (l : String) : String :=
  if strStartsWith l "--- " then "--- " ++ strDrop l 4 else l

/-- `unescapeDelimiters` from operation-definitions.ts: the per-line no-op
first pass, then the global replacement of the literal substring `" ---$"`
by `" ---"`. -/
def unescapeDelimiters (content : String) : String :=
  jsReplaceAll (joinNl ((splitLinesNl content).map unescapePrefixLine)) " ---$" " ---"

/-! ## file-utils.ts: find-text normalization, replacement, and the
filesystem primitives used by the executor -/

/-- JavaScript truthiness of an optional string field (`if (find)`):
`undefined` and the empty string are falsy. -/
def jsStrTruthy : Option String → Bool
  | none => false
  | some s => s ≠ ""

def adaptNewlinesAux (lineEnding : List Char) : List Char → Option Char → List Char
  | [], _ => []
  | c :: rest, prev =>
    if c = '\n' && prev ≠ some '\r' then
      lineEnding ++ adaptNewlinesAux lineEnding rest (some c)
    else
      c :: adaptNewlinesAux lineEnding rest (some c)

/-- `s.replace(/(?<!\r)\n/g, lineEnding)`: every `'\n'` whose predecessor in
the original string is not `'\r'` is replaced by `lineEnding`. -/
def adaptNewlines (s : String) (lineEnding : String) : String :=
  (adaptNewlinesAux lineEnding.toList s.toList none).asString

/-- The line ending the source infers for a file:
`originalContent.includes('\r\n') ? '\r\n' : '\n'`. -/
def inferLineEnding (originalContent : String) : String :=
  if strContains originalContent "\r\n" then "\r\n" else "\n"

/-- `computeFindMatchCount` from file-utils.ts:
`originalContent.split(adaptedFind).length - 1`. -/
def computeFindMatchCount (originalContent find : String) : Nat :=
  countOccurrences originalContent (adaptNewlines find (inferLineEnding originalContent))

def replaceFirstFuel (pat repl : List Char) : Nat → List Char → List Char
  | _, [] => []
  | 0, s => s
  | n + 1, c :: rest =>
    if pat ≠ [] && leadsWith pat (c :: rest) then
      repl ++ (c :: rest).drop pat.length
    else
      c :: replaceFirstFuel pat repl n rest

/-- JavaScript `s.replace(pat, repl)` without the `g` flag: only the first
occurrence is replaced. -/
def jsReplaceFirst (s pat repl : String) : String :=
  (replaceFirstFuel pat.toList repl.toList s.toList.length s.toList).asString

/-- `replaceInFile` from file-utils.ts.  Throws (here: `.error`) on zero or
multiple matches; with a falsy `find` it returns `content` unchanged.  The
`JSON.stringify(adaptedFind)` rendering inside the error text is elided. -/
def replaceInFile (originalContent content : String) (find : Option String) :
    Except String String :=
  if jsStrTruthy find then
    let f := find.getD ""
    let lineEnding := inferLineEnding originalContent
    let replacementString := adaptNewlines content lineEnding
    let adaptedFind := adaptNewlines f lineEnding
    let matchCount := countOccurrences originalContent adaptedFind
    if matchCount = 0 then
      .error "未找到匹配项"
    else if matchCount > 1 then
      .error "找到多个匹配项，请指定更具体的匹配模式"
    else
      .ok (jsReplaceFirst originalContent adaptedFind replacementString)
  else
    .ok content

deriving instance DecidableEq for Except

/-- A filesystem: an association list from absolute path to file content. -/
abbrev Fs := List (String × String)

def fsRead : Fs → String → Option String
  | [], _ => none
  | (q, c) :: rest, p => if q = p then some c else fsRead rest p

def fsWrite : Fs → String → String → Fs
  | [], p, c => [(p, c)]
  | (q, c') :: rest, p, c =>
    if q = p then (q, c) :: rest else (q, c') :: fsWrite rest p c

def fsErase : Fs → String → Fs
  | [], _ => []
  | (q, c) :: rest, p => if q = p then fsErase rest p else (q, c) :: fsErase rest p

/-- `createFile`: `mkdir -p` plus `writeFile`; never fails in this model
(writeFile overwrites an existing file). -/
def createFile (filePath content : String) (fs : Fs) : Except String Fs :=
  .ok (fsWrite fs filePath content)

/-- `writeFileWithReplace`: read (throws if missing), `replaceInFile`
(throws on zero/multiple matches), write back. -/
def writeFileWithReplace (filePath content : String) (find : Option String)
    (fs : Fs) : Except String Fs :=
  match fsRead fs filePath with
  | none => .error ("ENOENT: no such file " ++ filePath)
  | some originalContent =>
    match replaceInFile originalContent content find with
    | .error e => .error e
    | .ok newContent => .ok (fsWrite fs filePath newContent)

/-- `moveFile`: `fs.access(oldPath)` (throws if missing), `mkdir -p`,
`rename` (which overwrites an existing target). -/
def moveFile (oldPath newPath : String) (fs : Fs) : Except String Fs :=
  match fsRead fs oldPath with
  | none => .error ("ENOENT: no such file " ++ oldPath)
  | some c => .ok (fsWrite (fsErase fs oldPath) newPath c)

/-- `deleteFile`: `unlink` (throws if missing). -/
def deleteFile (filePath : String) (fs : Fs) : Except String Fs :=
  match fsRead fs filePath with
  | none => .error ("ENOENT: no such file " ++ filePath)
  | some _ => .ok (fsErase fs filePath)

/-! ## plan-executor.ts (src/core/plan-executor.ts)

The executor's operation set, as dispatched by its `switch` (`create`,
`writeWithReplace`, `move`, `delete`, and a throwing default for unknown
type tags).  `writeWithReplace` is the operation the specification's data
model names `edit{filePath, content, find?}`. -/

inductive FileOp where
  | create (filePath content : String)
  | writeWithReplace (filePath content : String) (find : Option String)
  | move (oldPath newPath : String)
  | delete (filePath : String)
  | unknownOp (ty : String)
deriving DecidableEq, Repr

/-- The `switch (op.type)` dispatch inside the execution loop. -/
def applyOp : FileOp → Fs → Except String Fs
  | .create p c, fs => createFile p c fs
  | .writeWithReplace p c f, fs => writeFileWithReplace p c f fs
  | .move o n, fs => moveFile o n fs
  | .delete p, fs => deleteFile p fs
  | .unknownOp ty, _ => .error ("未知操作类型: " ++ ty)

/-- The path an operation contributes to `filesToBackup`
(`op.type === 'writeWithReplace' || op.type === 'delete'`). -/
def backupRelevant : FileOp → Option String
  | .writeWithReplace p _ _ => some p
  | .delete p => some p
  | _ => none

/-- The `filesToBackup` scan (the `Set`'s deduplication only collapses
duplicate paths, which is immaterial to the resulting map and not
modeled). -/
def backupPaths : List FileOp → List String
  | [] => []
  | op :: rest =>
    match backupRelevant op with
    | some p => p :: backupPaths rest
    | none => backupPaths rest

/-- The backup preload loop: read each file to back up from the *initial*
filesystem, skipping files that do not exist. -/
def preloadBackups : List String → Fs → List (String × String)
  | [], _ => []
  | p :: rest, fs =>
    match fsRead fs p with
    | some c => (p, c) :: preloadBackups rest fs
    | none => preloadBackups rest fs

structure ExecEntry where
  operation : FileOp
  success : Bool
  error : Option String
deriving DecidableEq, Repr

structure ExecState where
  results : List ExecEntry
  successfulOps : Nat
  failedOps : Nat
  failedOperations : List (FileOp × String)
  fs : Fs
deriving Repr

/-- One iteration of the executor's `for (const op of executedOperations)`
loop.  On failure the source records the failure and logs
`'停止执行剩余操作。'`, but the loop body contains no `break`, so the fold
continues with the next operation either way. -/
def execStep (st : ExecState) (op : FileOp) : ExecState :=
  match applyOp op st.fs with
  | .ok fs' =>
    { st with
      results := st.results ++ [⟨op, true, none⟩]
      successfulOps := st.successfulOps + 1
      fs := fs' }
  | .error e =>
    { st with
      results := st.results ++ [⟨op, false, some e⟩]
      failedOps := st.failedOps + 1
      failedOperations := st.failedOperations ++ [(op, e)] }

def execLoop (operations : List FileOp) (fs : Fs) : ExecState :=
  operations.foldl execStep ⟨[], 0, 0, [], fs⟩

structure PlanResult where
  executionResults : List ExecEntry
  fileOriginalContents : List (String × String)
  successfulOps : Nat
  failedOps : Nat
  failedOperations : Option (List (FileOp × String))
deriving DecidableEq, Repr

/-- `executePlan` from plan-executor.ts, parameterized by the schema
validator it delegates to (`OperationValidator.validateOperations`; the
concrete Zod schema lives in a module outside the executor).  Ordering of
the source: backup preload first, then schema validation (throwing before
any mutation), then the execution loop, then the aggregate-failure throw. -/
def executePlan (validate : List FileOp → Bool) (operations : List FileOp)
    (fs : Fs) : Except String PlanResult :=
  let fileOriginalContents := preloadBackups (backupPaths operations) fs
  if ¬ validate operations then
    .error "计划包含无效操作"
  else
    let st := execLoop operations fs
    if st.failedOps > 0 then
      .error ("计划执行不完整: " ++ toString st.failedOps ++ " 个操作执行失败")
    else
      .ok ⟨st.results, fileOriginalContents, st.successfulOps, st.failedOps,
        if st.failedOperations ≠ [] then some st.failedOperations else none⟩

/-! ## operation-validator.ts: filesystem reachability validation

The validator's filesystem effects are abstracted into an oracle: `access`
and `readFile` may fail with an arbitrary error (an I/O exception),
`ignored` and the path helpers are total exactly as their sources are
(`isFileIgnored` swallows its own errors and returns `false`;
`findGitRoot`/`path.relative`/`path.dirname` cannot throw). -/

structure ValidationResult where
  isValid : Bool
  errors : List String
deriving DecidableEq, Repr

structure FsOracle where
  access : String → Except String Unit
  readFile : String → Except String String
  ignored : String → Bool
  relative : String → String
  dirname : String → String

/-- The operation universe the validator's `switch (op.type)` dispatches
on: `create`, `edit`, `move`, `delete`, and a default branch for any other
type tag.  Only the fields the validator consults are carried. -/
inductive VOp where
  | createV (filePath : String)
  | editV (filePath : String) (find : Option String)
  | moveV (oldPath newPath : String)
  | deleteV (filePath : String)
  | unknownV (ty : String)
deriving DecidableEq, Repr

/-- `validateCreateReachability`: fails when the file already exists
(`fs.access` resolving); an access error means the file is absent, which is
the expected state. -/
def validateCreateReachability (o : FsOracle) (filePath : String) : ValidationResult :=
  if filePath = "" then ⟨false, ["创建操作缺少文件路径"]⟩
  else
    match o.access filePath with
    | .ok _ => ⟨false, ["文件已存在: " ++ filePath]⟩
    | .error _ => ⟨true, []⟩

/-- `validateEditReachability`: ignore-pattern check, existence check, and
— when `find` is truthy — the `computeFindMatchCount` precondition with its
two distinct failure messages.  The surrounding `try/catch` converts any
`fs.access`/`fs.readFile` exception into the `无法访问文件` failure. -/
def validateEditReachability (o : FsOracle) (filePath : String)
    (find : Option String) : ValidationResult :=
  if filePath = "" then ⟨false, ["替换操作缺少文件路径"]⟩
  else if o.ignored (o.relative filePath) then ⟨false, ["文件被忽略,无法执行编辑操作"]⟩
  else
    match o.access filePath with
    | .error _ => ⟨false, ["无法访问文件: " ++ filePath]⟩
    | .ok _ =>
      if jsStrTruthy find then
        match o.readFile filePath with
        | .error _ => ⟨false, ["无法访问文件: " ++ filePath]⟩
        | .ok content =>
          let f := find.getD ""
          let findCount := computeFindMatchCount content f
          if findCount = 0 then
            ⟨false, ["在文件中找不到要替换的文本: " ++ filePath ++ "\n" ++ f ++ "\n"]⟩
          else if findCount > 1 then
            ⟨false, ["在文件中找到多个匹配项 (" ++ toString findCount ++
              "个)，需要更具体的查找文本: " ++ filePath]⟩
          else ⟨true, []⟩
      else ⟨true, []⟩

/-- `validateMoveReachability`: source must exist, the destination
directory must be accessible, and the destination file must not exist.  The
`catch` inspects the error text for `'源文件'` (which no `fs.access` error
contains) before falling back to the target-directory message. -/
def validateMoveReachability (o : FsOracle) (oldPath newPath : String) : ValidationResult :=
  let catchErr : String → ValidationResult := fun e =>
    if strContains e "源文件" then ⟨false, ["源文件不存在: " ++ oldPath]⟩
    else ⟨false, ["无法访问目标目录: " ++ o.dirname newPath]⟩
  if oldPath = "" || newPath = "" then ⟨false, ["移动操作缺少源路径或目标路径"]⟩
  else
    match o.access oldPath with
    | .error e => catchErr e
    | .ok _ =>
      match o.access (o.dirname newPath) with
      | .error e => catchErr e
      | .ok _ =>
        match o.access newPath with
        | .ok _ => ⟨false, ["目标文件已存在: " ++ newPath]⟩
        | .error _ => ⟨true, []⟩

/-- `validateDeleteReachability`: the file must exist. -/
def validateDeleteReachability (o : FsOracle) (filePath : String) : ValidationResult :=
  if filePath = "" then ⟨false, ["删除操作缺少文件路径"]⟩
  else
    match o.access filePath with
    | .ok _ => ⟨true, []⟩
    | .error _ => ⟨false, ["文件不存在: " ++ filePath]⟩

/-- `validateOperationReachability`: the type dispatch, whose default
branch reports the unknown type tag, wrapped in the outer `try/catch` that
would convert any escaped exception into a validation failure (every
sub-validator already converts its own I/O failures, so the function is
total and always yields a structured result). -/
def validateOperationReachability (o : FsOracle) : VOp → ValidationResult
  | .createV p => validateCreateReachability o p
  | .editV p f => validateEditReachability o p f
  | .moveV op np => validateMoveReachability o op np
  | .deleteV p => validateDeleteReachability o p
  | .unknownV ty => ⟨false, ["未知操作类型: " ++ ty]⟩

/-! ## A JSON value model

JavaScript values flowing through the parser: JSON5 output and the plain
objects the delimited parser assembles. -/

inductive Json where
  | str (s : String)
  | num (n : Int)
  | jbool (b : Bool)
  | null
  | arr (elems : List Json)
  | obj (fields : List (String × Json))

/-- JavaScript object property lookup. -/
def objLookup : List (String × Json) → String → Option Json
  | [], _ => none
  | (k, v) :: rest, key => if k = key then some v else objLookup rest key

/-- JavaScript object property assignment: overwrite in place, or append a
new property. -/
def objInsert : List (String × Json) → String → Json → List (String × Json)
  | [], key, v => [(key, v)]
  | (k, w) :: rest, key, v =>
    if k = key then (k, v) :: rest else (k, w) :: objInsert rest key v

/-- JavaScript `delete obj[key]`. -/
def objRemove (o : List (String × Json)) (key : String) : List (String × Json) :=
  o.filter (fun kv => kv.1 ≠ key)

/-- JavaScript truthiness of an optional property (`if (!operation.type)`). -/
def jsonTruthy : Option Json → Bool
  | none => false
  | some (.str s) => s ≠ ""
  | some (.num n) => n ≠ 0
  | some (.jbool b) => b
  | some .null => false
  | some (.arr _) => true
  | some (.obj _) => true

/-- `Number(value)` restricted to the forms the block parser meets: the
empty/whitespace string coerces to `0`, optionally signed decimal integer
strings to their value, and anything else to `NaN` (`none`).  Fractional,
hex and exponent literals are not modeled. -/
def jsNumber (s : String) : Option Int :=
  let t := jsTrim s
  if t = "" then some 0
  else
    let signed : Int × List Char :=
      match t.toList with
      | '-' :: rest => (-1, rest)
      | '+' :: rest => (1, rest)
      | l => (1, l)
    if signed.2 ≠ [] && signed.2.all Char.isDigit then
      some (signed.1 * (signed.2.foldl (fun acc c => acc * 10 + (c.toNat - 48)) 0 : Nat))
    else none

/-! ## A model of `JSON5.parse` (external library)

A recursive-descent parser for the standard-JSON fragment exercised by the
concrete claims (strings, integers, booleans, null, arrays, objects —
JSON5's further tolerances are immaterial here; the general theorems treat
the parse function as an abstract parameter).  `none` models a thrown
`SyntaxError`. -/

def skipWs (cs : List Char) : List Char :=
  cs.dropWhile (fun c => c = ' ' || c = '\t' || c = '\n' || c = '\r')

def parseJsonStrAux : List Char → List Char → Option (String × List Char)
  | [], _ => none
  | '"' :: rest, acc => some (acc.reverse.asString, rest)
  | '\\' :: e :: rest, acc =>
    if e = '"' then parseJsonStrAux rest ('"' :: acc)
    else if e = '\\' then parseJsonStrAux rest ('\\' :: acc)
    else if e = '/' then parseJsonStrAux rest ('/' :: acc)
    else if e = 'n' then parseJsonStrAux rest ('\n' :: acc)
    else if e = 't' then parseJsonStrAux rest ('\t' :: acc)
    else if e = 'r' then parseJsonStrAux rest ('\r' :: acc)
    else if e = 'b' then parseJsonStrAux rest ((Char.ofNat 8) :: acc)
    else if e = 'f' then parseJsonStrAux rest ((Char.ofNat 12) :: acc)
    else none
  | ['\\'], _ => none
  | c :: rest, acc => parseJsonStrAux rest (c :: acc)

def parseJsonNum (cs : List Char) : Option (Json × List Char) :=
  let signed : Int × List Char :=
    match cs with
    | '-' :: rest => (-1, rest)
    | l => (1, l)
  let ds := signed.2.takeWhile Char.isDigit
  let rest := signed.2.dropWhile Char.isDigit
  if ds ≠ [] then
    some (.num (signed.1 * (ds.foldl (fun acc c => acc * 10 + (c.toNat - 48)) 0 : Nat)), rest)
  else none

mutual

def parseJsonV : Nat → List Char → Option (Json × List Char)
  | 0, _ => none
  | f + 1, cs =>
    match skipWs cs with
    | '"' :: rest => (parseJsonStrAux rest []).map (fun p => (Json.str p.1, p.2))
    | '[' :: rest => parseJsonArrItems f rest []
    | '{' :: rest => parseJsonObjItems f rest []
    | cs' =>
      if leadsWith "true".toList cs' then some (.jbool true, cs'.drop 4)
      else if leadsWith "false".toList cs' then some (.jbool false, cs'.drop 5)
      else if leadsWith "null".toList cs' then some (.null, cs'.drop 4)
      else parseJsonNum cs'

def parseJsonArrItems : Nat → List Char → List Json → Option (Json × List Char)
  | 0, _, _ => none
  | f + 1, cs, acc =>
    match skipWs cs with
    | ']' :: rest => some (.arr acc.reverse, rest)
    | cs' =>
      match parseJsonV f cs' with
      | none => none
      | some (v, rest) =>
        match skipWs rest with
        | ',' :: rest' => parseJsonArrItems f rest' (v :: acc)
        | ']' :: rest' => some (.arr (v :: acc).reverse, rest')
        | _ => none

def parseJsonObjItems : Nat → List Char → List (String × Json) → Option (Json × List Char)
  | 0, _, _ => none
  | f + 1, cs, acc =>
    match skipWs cs with
    | '}' :: rest => some (.obj acc.reverse, rest)
    | '"' :: rest =>
      match parseJsonStrAux rest [] with
      | none => none
      | some (k, rest1) =>
        match skipWs rest1 with
        | ':' :: rest2 =>
          match parseJsonV f rest2 with
          | none => none
          | some (v, rest3) =>
            match skipWs rest3 with
            | ',' :: rest4 => parseJsonObjItems f rest4 ((k, v) :: acc)
            | '}' :: rest4 => some (.obj ((k, v) :: acc).reverse, rest4)
            | _ => none
        | _ => none
    | _ => none

end

def jsonParse (s : String) : Option Json :=
  match parseJsonV (s.toList.length + 1) s.toList with
  | some (v, rest) => if skipWs rest = [] then some v else none
  | none => none

/-! ## operation-schema.ts: the Zod schema (the eight-variant definition
the specification designates as authoritative)

`z.object` accepts extra keys; a present optional field must have the
declared type; `z.string().min(1)` requires a nonempty string. -/

def isStrField (o : List (String × Json)) (k : String) : Bool :=
  match objLookup o k with
  | some (.str _) => true
  | _ => false

def isNonemptyStrField (o : List (String × Json)) (k : String) : Bool :=
  match objLookup o k with
  | some (.str s) => s ≠ ""
  | _ => false

def optStrField (o : List (String × Json)) (k : String) : Bool :=
  match objLookup o k with
  | none => true
  | some (.str _) => true
  | _ => false

def optNumField (o : List (String × Json)) (k : String) : Bool :=
  match objLookup o k with
  | none => true
  | some (.num _) => true
  | _ => false

def optBoolField (o : List (String × Json)) (k : String) : Bool :=
  match objLookup o k with
  | none => true
  | some (.jbool _) => true
  | _ => false

def typeIs (o : List (String × Json)) (t : String) : Bool :=
  match objLookup o "type" with
  | some (.str u) => u = t
  | _ => false

def validResponseOp (o : List (String × Json)) : Bool :=
  typeIs o "response" && isStrField o "content" && optStrField o "comment"

def validCreateOp (o : List (String × Json)) : Bool :=
  typeIs o "create" && isNonemptyStrField o "filePath" && isStrField o "content" &&
    optStrField o "comment"

def validEditOp (o : List (String × Json)) : Bool :=
  typeIs o "edit" && isNonemptyStrField o "filePath" && optStrField o "find" &&
    isStrField o "content" && optStrField o "comment"

def validMoveOp (o : List (String × Json)) : Bool :=
  typeIs o "move" && isNonemptyStrField o "oldPath" && isNonemptyStrField o "newPath" &&
    optStrField o "comment"

def validDeleteOp (o : List (String × Json)) : Bool :=
  typeIs o "delete" && isNonemptyStrField o "filePath" && optStrField o "comment"

def validListDirectoryOp (o : List (String × Json)) : Bool :=
  typeIs o "list_directory" && isNonemptyStrField o "path" && optBoolField o "recursive" &&
    optNumField o "maxDepth" && optStrField o "comment"

def validSearchContentOp (o : List (String × Json)) : Bool :=
  typeIs o "search_content" && isNonemptyStrField o "path" &&
    isNonemptyStrField o "pattern" && optStrField o "filePattern" &&
    optNumField o "contextLines" && optStrField o "comment"

def validReadFileOp (o : List (String × Json)) : Bool :=
  typeIs o "read_file" && isNonemptyStrField o "path" && optNumField o "start" &&
    optNumField o "end" && optStrField o "comment"

/-- `validateOperation` against `AiOperationSchema` (a union: any variant
accepting the value makes it valid). -/
def validateOperationJson : Json → Bool
  | .obj o =>
    validResponseOp o || validListDirectoryOp o || validSearchContentOp o ||
    validReadFileOp o || validCreateOp o || validEditOp o || validMoveOp o ||
    validDeleteOp o
  | _ => false

/-- `validateOperations`: valid exactly when every element is valid. -/
def validateOperationsJson (ops : List Json) : Bool := ops.all validateOperationJson

/-! ## ai-response-parser.ts -/

structure BlockState where
  op : List (String × Json)
  currentContentKey : Option String
  contentLines : List String

def initBlockState : BlockState := ⟨[], none, []⟩

def nestedStartErr (k trimmedLine : String) : String :=
  "在 '" ++ k ++ " START' 块内发现嵌套的开始定界符: '" ++ trimmedLine ++ "'"

/-- `s.substring(0, n)`. -/
def strTake (s : String) (n : Nat) : String := (s.toList.take n).asString

/-- One iteration of `parseSingleOperationBlock`'s line loop.  `resolve`
abstracts `toAbsolutePath` (it consults the filesystem). -/
def blockStep (looseMode : Bool) (resolve : String → String) (st : BlockState)
    (line : String) : Except String BlockState :=
  let trimmedLine := jsTrim line
  match matchStartDelimiter trimmedLine with
  | some ident =>
    match st.currentContentKey with
    | some k =>
      if looseMode then
        .ok ⟨objInsert st.op (strToLower k) (.str (joinNl st.contentLines)),
             some ident, []⟩
      else
        .error (nestedStartErr k trimmedLine)
    | none => .ok { st with currentContentKey := some ident }
  | none =>
    match st.currentContentKey with
    | some k =>
      if matchEndDelimiter trimmedLine = some k ||
          (looseMode && (trimmedLine = "--- end ---" || trimmedLine = "--- end content ---")) then
        .ok ⟨objInsert st.op (strToLower k) (.str (joinNl st.contentLines)), none, []⟩
      else
        .ok { st with contentLines := st.contentLines ++ [line] }
    | none =>
      if trimmedLine ≠ "" then
        match strIndexOfChar trimmedLine ':' with
        | some sepIdx =>
          if sepIdx > 0 then
            let key := jsTrim (strTake trimmedLine sepIdx)
            let value := jsTrim (strDrop trimmedLine (sepIdx + 1))
            if key = "startLine" || key = "endLine" then
              match jsNumber value with
              | some n => .ok { st with op := objInsert st.op key (.num n) }
              | none =>
                if key ≠ "" && value ≠ "" then
                  .ok { st with op := objInsert st.op key (.str value) }
                else .ok st
            else if key = "filePath" || key = "oldPath" || key = "newPath" then
              .ok { st with op := objInsert st.op key (.str (resolve value)) }
            else if key ≠ "" && value ≠ "" then
              .ok { st with op := objInsert st.op key (.str value) }
            else .ok st
          else .ok st
        | none => .ok st
      else .ok st

def blockFold (looseMode : Bool) (resolve : String → String) :
    BlockState → List String → Except String BlockState
  | st, [] => .ok st
  | st, l :: rest =>
    match blockStep looseMode resolve st l with
    | .error e => .error e
    | .ok st' => blockFold looseMode resolve st' rest

/-- The two checks after the loop, in source order: the missing-`type`
rejection, then the unterminated-content-block handling (an error in strict
mode, an auto-close in loose mode). -/
def blockFinish (looseMode : Bool) (st : BlockState) :
    Except String (List (String × Json)) :=
  if ¬ jsonTruthy (objLookup st.op "type") then
    .error "操作块缺少'type'属性"
  else
    match st.currentContentKey with
    | some k =>
      if looseMode then
        .ok (objInsert st.op (strToLower k) (.str (joinNl st.contentLines)))
      else
        .error ("未关闭的内容块: '" ++ k ++ " START'")
    | none => .ok st.op

def parseOperationLines (looseMode : Bool) (resolve : String → String)
    (lines : List String) : Except String (List (String × Json)) :=
  match blockFold looseMode resolve initBlockState lines with
  | .error e => .error e
  | .ok st => blockFinish looseMode st

/-- `parseSingleOperationBlock` from ai-response-parser.ts. -/
def parseSingleOperationBlock (looseMode : Bool) (resolve : String → String)
    (blockContent : String) : Except String (List (String × Json)) :=
  parseOperationLines looseMode resolve (splitLinesNl blockContent)

structure FindBlocksState where
  validBlocks : List String
  currentBlock : List String
  inOperationBlock : Bool
deriving DecidableEq, Repr

/-- One iteration of `findOperationBlocks`'s line loop: a bare top-level
start marker (discarding any in-progress block), a bare end marker
(pushing a block with actual content), or content collection. -/
def findBlocksStep (st : FindBlocksState) (line : String) : FindBlocksState :=
  let trimmedLine := jsTrim line
  if trimmedLine = startDelimiter then
    { st with inOperationBlock := true, currentBlock := [] }
  else if trimmedLine = endDelimiter then
    if ¬ st.inOperationBlock then st
    else
      let blockContent := joinNl st.currentBlock
      { validBlocks :=
          st.validBlocks ++ (if jsTrim blockContent ≠ "" then [blockContent] else []),
        currentBlock := [], inOperationBlock := false }
  else if st.inOperationBlock then
    { st with currentBlock := st.currentBlock ++ [line] }
  else st

/-- `findOperationBlocks` (a trailing unterminated block is discarded). -/
def findOperationBlocks (response : String) : List String :=
  ((splitLinesNl response).foldl findBlocksStep ⟨[], [], false⟩).validBlocks

/-- `parseDelimitedOperations`: parse and (when `shouldValidate`) validate
each block, skipping blocks that fail either step. -/
def parseDelimitedOperations (resolve : String → String) (response : String)
    (shouldValidate looseMode : Bool) : List Json :=
  (findOperationBlocks response).foldl
    (fun ops block =>
      if jsTrim block = "" then ops
      else
        match parseSingleOperationBlock looseMode resolve block with
        | .error _ => ops
        | .ok operation =>
          if shouldValidate && ¬ validateOperationJson (.obj operation) then ops
          else ops ++ [Json.obj operation])
    []

/-- The shape test of `tryParseAsJson`: text starting with `[`, or starting
with `{` and ending with `}`. -/
def jsonShaped (t : String) : Bool :=
  strStartsWith t "[" || (strStartsWith t "\x7b" && strEndsWith t "\x7d")

/-- Wrapping a parsed value the way the source does
(`Array.isArray(jsonContent) ? jsonContent : [jsonContent]`). -/
def jsonToOps : Json → List Json
  | .arr elems => elems
  | v => [v]

/-- `tryParseAsJson`, with the JSON5 library abstracted as `jparse` (`none`
models a thrown `SyntaxError`, which the function swallows by returning the
empty list; a parse that succeeds but fails schema validation is rethrown
as an error — the per-index Zod details of the message are elided). -/
def tryParseAsJson (jparse : String → Option Json) (response : String) :
    Except String (List Json) :=
  let trimmed := jsTrim response
  if ¬ jsonShaped trimmed then .ok []
  else
    match jparse trimmed with
    | none => .ok []
    | some jsonContent =>
      match jsonToOps jsonContent with
      | [] => .ok []
      | operations =>
        if ¬ validateOperationsJson operations then .error "JSON 验证失败"
        else .ok operations

/-- `parseAiResponse`: trim; try JSON (catching and logging its error);
fall back to delimited parsing when JSON mode yields nothing. -/
def parseAiResponse (jparse : String → Option Json) (resolve : String → String)
    (response : String) (shouldValidate looseMode : Bool) : List Json :=
  let trimmed := jsTrim response
  if trimmed = "" then []
  else
    match tryParseAsJson jparse trimmed with
    | .ok [] => parseDelimitedOperations resolve trimmed shouldValidate looseMode
    | .ok jsonOps => jsonOps
    | .error _ =>
      parseDelimitedOperations resolve trimmed shouldValidate looseMode

/-! ## plan-fixer.ts: the auto-fix retry loop -/

/-- The outcome of one auto-fix attempt: the model call
(`streamAiResponse`) throwing, or a reply given by the operation list its
`parseAiResponse` parse produces. -/
inductive FixAttempt where
  | throwErr
  | reply (ops : List Json)

def jsonOpType : Json → Option String
  | .obj o =>
    match objLookup o "type" with
    | some (.str t) => some t
    | _ => none
  | _ => none

/-- `fixedOps.filter(op => op.type !== 'response')`. -/
def filterFileOps (ops : List Json) : List Json :=
  ops.filter (fun op => jsonOpType op ≠ some "response")

/-- The `for (attempt = 1; attempt <= maxRetries; ...)` loop of
`autoFixOperations`, with reachability validation abstracted as `valid`
(it consults the live filesystem) and the attempt outcomes as `attempts`;
`i` is the attempt number and the second component counts the model calls
made.  A thrown call (caught by the loop's `try/catch`) and an empty parse
both log a warning and fall through to the next attempt; a reply whose
non-`response` operations validate is returned immediately. -/
def autoFixGo (valid : List Json → Bool) (attempts : Nat → FixAttempt) :
    Nat → Nat → Option (List Json) × Nat
  | _, 0 => (none, 0)
  | i, r + 1 =>
    match attempts i with
    | .throwErr =>
      ((autoFixGo valid attempts (i + 1) r).1, (autoFixGo valid attempts (i + 1) r).2 + 1)
    | .reply [] =>
      ((autoFixGo valid attempts (i + 1) r).1, (autoFixGo valid attempts (i + 1) r).2 + 1)
    | .reply fixedOps =>
      if valid (filterFileOps fixedOps) then (some (filterFileOps fixedOps), 1)
      else
        ((autoFixGo valid attempts (i + 1) r).1, (autoFixGo valid attempts (i + 1) r).2 + 1)

/-- `autoFixOperations(failedOps, maxRetries)`: run the loop from attempt 1;
`none` models the `null` returned after the loop exhausts. -/
def autoFixOperations (valid : List Json → Bool) (attempts : Nat → FixAttempt)
    (maxRetries : Nat) : Option (List Json) × Nat :=
  autoFixGo valid attempts 1 maxRetries

/-- The source's default for `maxRetries`. -/
def autoFixDefaultMaxRetries : Nat := 3

/-- An attempt that does not produce a returned fix: a throw, zero parsed
operations, or filtered operations failing reachability validation. -/
def attemptFails (valid : List Json → Bool) : FixAttempt → Bool
  | .throwErr => true
  | .reply [] => true
  | .reply ops => !valid (filterFileOps ops)

/-! ## plan-reviewer.ts: the detailed diff review -/

/-- The user's interaction with one `showDiffInVsCode` call: saving edited
content (a non-null return), cancelling (a null return), or the viewer
throwing (caught by the per-operation `try/catch`). -/
inductive DiffOutcome where
  | saved (content : String)
  | cancelled
  | errored

def strFieldOr (o : List (String × Json)) (k : String) : String :=
  match objLookup o k with
  | some (.str s) => s
  | _ => ""

def optStrFieldVal (o : List (String × Json)) (k : String) : Option String :=
  match objLookup o k with
  | some (.str s) => some s
  | _ => none

/-- The per-operation body of `reviewChangesInDetail`'s loop, returning the
entries it pushes onto `reviewedOperations`.  For a `create`, the diff is
shown against an empty original; a save updates `content` (deleting
`startLine`/`endLine`), keeping the original when the updated operation
fails schema validation, while a cancel pushes nothing (the create is
dropped with `跳过创建`).  For a `writeWithReplace`, a failing file read or
a throwing `replaceInFile` preview keeps the original; a save updates
`content` and deletes `find`; a cancel keeps the operation.  Any other
type is pushed through unchanged. -/
def reviewStep (validOp : List (String × Json) → Bool)
    (readFs : String → Except String String)
    (o : List (String × Json)) (d : DiffOutcome) : List (List (String × Json)) :=
  if typeIs o "create" then
    match d with
    | .saved s =>
      let updatedOp :=
        objRemove (objRemove (objInsert o "content" (.str s)) "startLine") "endLine"
      if validOp updatedOp then [updatedOp] else [o]
    | .cancelled => []
    | .errored => [o]
  else if typeIs o "writeWithReplace" then
    match readFs (strFieldOr o "filePath") with
    | .error _ => [o]
    | .ok originalContent =>
      match replaceInFile originalContent (strFieldOr o "content")
          (optStrFieldVal o "find") with
      | .error _ => [o]
      | .ok _ =>
        match d with
        | .saved s =>
          let updatedOp := objRemove (objInsert o "content" (.str s)) "find"
          if validOp updatedOp then [updatedOp] else [o]
        | .cancelled => [o]
        | .errored => [o]
  else [o]

/-- `reviewChangesInDetail`: the schema-validation gate (returning the plan
unchanged on failure), then the per-operation loop; `diff` gives the user's
interaction with the diff shown for the operation at each index. -/
def reviewChangesInDetail (validOp : List (String × Json) → Bool)
    (readFs : String → Except String String)
    (ops : List (List (String × Json))) (diff : Nat → DiffOutcome) :
    List (List (String × Json)) :=
  if ¬ (ops.all validOp) then ops
  else
    (List.zip (List.range ops.length) ops).foldl
      (fun acc io => acc ++ reviewStep validOp readFs io.2 (diff io.1)) []

/-! ## Theorems -/

theorem mem_backupPaths {ops : List FileOp} {op : FileOp} {p : String}
    (hmem : op ∈ ops) (hrel : backupRelevant op = some p) :
    p ∈ backupPaths ops := by
  induction ops with
  | nil => cases hmem
  | cons o rest ih =>
    rcases List.mem_cons.mp hmem with h | h
    · subst h
      simp only [backupPaths, hrel]
      exact List.mem_cons_self _ _
    · have := ih h
      simp only [backupPaths]
      cases hro : backupRelevant o with
      | none => exact this
      | some q => exact List.mem_cons_of_mem _ this

theorem fsRead_preloadBackups {paths : List String} {fs : Fs} {p : String}
    {c : String} (hmem : p ∈ paths) (hread : fsRead fs p = some c) :
    fsRead (preloadBackups paths fs) p = some c := by
  induction paths with
  | nil => cases hmem
  | cons q rest ih =>
    rcases List.mem_cons.mp hmem with h | h
    · subst h
      simp [preloadBackups, hread, fsRead]
    · simp only [preloadBackups]
      cases hq : fsRead fs q with
      | none => exact ih h
      | some c' =>
        by_cases hqp : q = p
        · subst hqp
          rw [hq] at hread
          simp only [fsRead, if_pos rfl]
          exact hread
        · simp only [fsRead, if_neg hqp]
          exact ih h

/-- C1: the specification claims that when operation *i* of a plan throws,
operations *i+1..n* are never attempted and `failedOps == 1` with that
operation recorded.  The executor's loop records the failure and logs
"停止执行剩余操作" but contains no `break`, so execution continues: in the
plan `[move missing.txt → x.txt, create b.txt]` on an empty filesystem the
first operation throws, yet the second operation's filesystem primitive
still runs and creates `b.txt`. -/
theorem executePlan_continues_after_failure :
    (execLoop [FileOp.move "missing.txt" "x.txt", FileOp.create "b.txt" "y"] []).failedOps = 1 ∧
    (execLoop [FileOp.move "missing.txt" "x.txt", FileOp.create "b.txt" "y"] []).fs
      = [("b.txt", "y")] ∧
    ((execLoop [FileOp.move "missing.txt" "x.txt", FileOp.create "b.txt" "y"] []).results.map
      ExecEntry.success) = [false, true] ∧
    executePlan (fun _ => true)
      [FileOp.move "missing.txt" "x.txt", FileOp.create "b.txt" "y"] [] =
        Except.error "计划执行不完整: 1 个操作执行失败" := by
  decide

/-- C2: for any plan containing a `writeWithReplace` (the executor's
edit-with-optional-find operation, `edit` in the specification's naming) or
`delete` on a file that exists before execution, the `fileOriginalContents`
map — captured by the preload scan from the initial filesystem, before any
mutation and before schema validation — contains that file's pre-mutation
content under its path key, and any returned result carries exactly that
map. -/
theorem executePlan_backup_invariant
    (validate : List FileOp → Bool) (ops : List FileOp) (fs : Fs)
    (p c : String) (op : FileOp)
    (hmem : op ∈ ops) (hrel : backupRelevant op = some p)
    (hread : fsRead fs p = some c) :
    fsRead (preloadBackups (backupPaths ops) fs) p = some c ∧
    ∀ r, executePlan validate ops fs = .ok r →
      fsRead r.fileOriginalContents p = some c := by
  have hpre := fsRead_preloadBackups (mem_backupPaths hmem hrel) hread
  refine ⟨hpre, ?_⟩
  intro r hr
  simp only [executePlan] at hr
  by_cases hv : validate ops
  · simp only [hv, not_true, if_neg, ite_false] at hr
    by_cases hf : (execLoop ops fs).failedOps > 0
    · simp [hf] at hr
    · simp only [hf, ite_false] at hr
      cases hr
      exact hpre
  · simp [hv] at hr

/-- Closed instance of the C2 backup invariant: a one-operation delete plan
on a filesystem where the file exists. -/
theorem executePlan_backup_invariant_witness :
    ((FileOp.delete "a.txt") ∈ [FileOp.delete "a.txt"] ∧
     backupRelevant (FileOp.delete "a.txt") = some "a.txt" ∧
     fsRead [("a.txt", "hello")] "a.txt" = some "hello") ∧
    (fsRead (preloadBackups (backupPaths [FileOp.delete "a.txt"]) [("a.txt", "hello")])
        "a.txt" = some "hello" ∧
     ∀ r, executePlan (fun _ => true) [FileOp.delete "a.txt"] [("a.txt", "hello")] = .ok r →
       fsRead r.fileOriginalContents "a.txt" = some "hello") :=
  ⟨⟨by decide, by decide, by decide⟩,
   executePlan_backup_invariant (fun _ => true) [FileOp.delete "a.txt"]
     [("a.txt", "hello")] "a.txt" "hello" (FileOp.delete "a.txt")
     (by decide) (by decide) (by decide)⟩

/-- C3: the specification claims `unescapeDelimiters (escapeDelimiters s) = s`
for every string.  `escapeDelimiters "--- x"` prepends the escape prefix,
producing `"\--- x"`, but `unescapeDelimiters` — whose first regex reads the
interpolated backslash as an identity escape for the following hyphen and
therefore matches lines beginning `"--- "`, not `"\--- "` — leaves the
prefix in place, so the round trip returns `"\--- x" ≠ "--- x"`. -/
theorem escapeDelimiters_roundtrip_failure :
    escapeDelimiters "--- x" = "\\--- x" ∧
    unescapeDelimiters (escapeDelimiters "--- x") = "\\--- x" ∧
    unescapeDelimiters (escapeDelimiters "--- x") ≠ "--- x" := by
  decide

/-- C4: for an edit with a nonempty `find` on an existing, non-ignored
file, reachability validation succeeds exactly when the line-ending
normalized find text occurs once in the file content; zero occurrences
yield the not-found failure, two or more yield the failure reporting the
exact match count. -/
theorem validateEditReachability_match_count
    (o : FsOracle) (filePath f content : String)
    (hpath : filePath ≠ "") (hig : o.ignored (o.relative filePath) = false)
    (hacc : o.access filePath = .ok ()) (hread : o.readFile filePath = .ok content)
    (hf : f ≠ "") :
    ((validateEditReachability o filePath (some f)).isValid = true ↔
      computeFindMatchCount content f = 1) ∧
    (computeFindMatchCount content f = 0 →
      validateEditReachability o filePath (some f) =
        ⟨false, ["在文件中找不到要替换的文本: " ++ filePath ++ "\n" ++ f ++ "\n"]⟩) ∧
    (computeFindMatchCount content f > 1 →
      validateEditReachability o filePath (some f) =
        ⟨false, ["在文件中找到多个匹配项 (" ++ toString (computeFindMatchCount content f) ++
          "个)，需要更具体的查找文本: " ++ filePath]⟩) := by
  have hft : jsStrTruthy (some f) = true := by
    simp [jsStrTruthy, hf]
  simp only [validateEditReachability, if_neg hpath, hig, Bool.false_eq_true, if_false,
    hacc, hft, if_true, hread, Option.getD_some]
  rcases hc : computeFindMatchCount content f with _ | n
  · simp [hc]
  · rcases n with _ | n
    · simp [hc]
    · simp [hc]

/-- Closed instance of the C4 edit precondition at a concrete oracle:
`find = "foo"` occurs exactly once in `"foo\nbaz\n"`, so validation passes;
the same find in `"foo\nfoo\n"` fails with the 2-match message. -/
theorem validateEditReachability_match_count_witness :
    (("/a.txt" : String) ≠ "" ∧ ("foo" : String) ≠ "") ∧
    ((validateEditReachability
        ⟨fun _ => .ok (), fun _ => .ok "foo\nbaz\n", fun _ => false, id, id⟩
        "/a.txt" (some "foo")).isValid = true ↔
      computeFindMatchCount "foo\nbaz\n" "foo" = 1) ∧
    (computeFindMatchCount "foo\nfoo\n" "foo" = 2 ∧
      validateEditReachability
        ⟨fun _ => .ok (), fun _ => .ok "foo\nfoo\n", fun _ => false, id, id⟩
        "/a.txt" (some "foo") =
        ⟨false, ["在文件中找到多个匹配项 (2个)，需要更具体的查找文本: /a.txt"]⟩) :=
  ⟨⟨by decide, by decide⟩,
   (validateEditReachability_match_count
      ⟨fun _ => .ok (), fun _ => .ok "foo\nbaz\n", fun _ => false, id, id⟩
      "/a.txt" "foo" "foo\nbaz\n" (by decide) rfl rfl rfl (by decide)).1,
   by decide,
   by
    have h := (validateEditReachability_match_count
      ⟨fun _ => .ok (), fun _ => .ok "foo\nfoo\n", fun _ => false, id, id⟩
      "/a.txt" "foo" "foo\nfoo\n" (by decide) rfl rfl rfl (by decide)).2.2
      (by decide)
    have hc : computeFindMatchCount "foo\nfoo\n" "foo" = 2 := by decide
    rw [hc] at h
    exact h⟩

/-- C7: reachability checking is total: every operation, including ones of
unknown type and ones whose filesystem checks fail, yields a structured
result — invalid results always carry an error message, an unknown type
is reported with its literal tag, and an `fs.access`/`fs.readFile`
exception during an edit check is converted into the access-failure
validation result instead of propagating. -/
theorem validateOperationReachability_total (o : FsOracle) :
    (∀ op : VOp, (validateOperationReachability o op).isValid = false →
      (validateOperationReachability o op).errors ≠ []) ∧
    (∀ ty, validateOperationReachability o (.unknownV ty) =
      ⟨false, ["未知操作类型: " ++ ty]⟩) ∧
    (∀ p f e, p ≠ "" → o.ignored (o.relative p) = false →
      o.access p = .error e →
      validateOperationReachability o (.editV p f) =
        ⟨false, ["无法访问文件: " ++ p]⟩) ∧
    (∀ p f e, p ≠ "" → o.ignored (o.relative p) = false →
      o.access p = .ok () → jsStrTruthy f = true → o.readFile p = .error e →
      validateOperationReachability o (.editV p f) =
        ⟨false, ["无法访问文件: " ++ p]⟩) := by
  refine ⟨?_, fun ty => rfl, ?_, ?_⟩
  · intro op
    cases op with
    | createV p =>
      simp only [validateOperationReachability, validateCreateReachability]
      by_cases hp : p = ""
      · simp [hp]
      · rw [if_neg hp]
        cases o.access p <;> simp
    | editV p f =>
      simp only [validateOperationReachability, validateEditReachability]
      by_cases hp : p = ""
      · simp [hp]
      · rw [if_neg hp]
        by_cases hig : o.ignored (o.relative p) = true
        · rw [if_pos hig]; simp
        · rw [if_neg hig]
          cases o.access p with
          | error e => simp
          | ok u =>
            dsimp only
            by_cases hf : jsStrTruthy f = true
            · rw [if_pos hf]
              cases o.readFile p with
              | error e => simp
              | ok content =>
                dsimp only
                by_cases h0 : computeFindMatchCount content (f.getD "") = 0
                · simp [h0]
                · rw [if_neg h0]
                  by_cases h1 : computeFindMatchCount content (f.getD "") > 1
                  · simp [h1]
                  · simp [h1]
            · rw [if_neg hf]; simp
    | moveV op' np =>
      simp only [validateOperationReachability, validateMoveReachability]
      by_cases hp : (op' = "" || np = "") = true
      · simp [hp]
      · rw [if_neg (by simpa using hp)]
        cases o.access op' with
        | error e =>
          dsimp only
          by_cases hs : strContains e "源文件" = true <;> simp [hs]
        | ok u =>
          dsimp only
          cases o.access (o.dirname np) with
          | error e =>
            dsimp only
            by_cases hs : strContains e "源文件" = true <;> simp [hs]
          | ok u' =>
            dsimp only
            cases o.access np <;> simp
    | deleteV p =>
      simp only [validateOperationReachability, validateDeleteReachability]
      by_cases hp : p = ""
      · simp [hp]
      · rw [if_neg hp]
        cases o.access p <;> simp
    | unknownV ty => simp [validateOperationReachability]
  · intro p f e hp hig hacc
    simp [validateOperationReachability, validateEditReachability, hp, hig, hacc]
  · intro p f e hp hig hacc hf hread
    simp [validateOperationReachability, validateEditReachability, hp, hig, hacc, hf, hread]

/-- Closed instance of C7 totality: an oracle whose every filesystem call
raises still produces structured validation failures, and an unknown
operation type is reported by name. -/
theorem validateOperationReachability_total_witness :
    validateOperationReachability
        ⟨fun _ => .error "EACCES", fun _ => .error "EIO", fun _ => false, id, id⟩
        (.unknownV "frobnicate") = ⟨false, ["未知操作类型: frobnicate"]⟩ ∧
    validateOperationReachability
        ⟨fun _ => .error "EACCES", fun _ => .error "EIO", fun _ => false, id, id⟩
        (.editV "/a" (some "x")) = ⟨false, ["无法访问文件: /a"]⟩ :=
  ⟨(validateOperationReachability_total _).2.1 "frobnicate",
   (validateOperationReachability_total _).2.2.1 "/a" (some "x") "EACCES"
     (by decide) rfl rfl⟩

/-- C10: an edit whose `find` field is the empty string is treated exactly
like an edit without `find` (both are falsy to `if (find)`): reachability
validation skips the match-count check and succeeds on any existing,
non-ignored file, and applying the edit replaces the whole file content
instead of find-and-replacing. -/
theorem edit_empty_find_treated_as_absent :
    (∀ (o : FsOracle) (filePath : String),
      validateEditReachability o filePath (some "") =
        validateEditReachability o filePath none) ∧
    (∀ (o : FsOracle) (filePath : String), filePath ≠ "" →
      o.ignored (o.relative filePath) = false → o.access filePath = .ok () →
      (validateEditReachability o filePath (some "")).isValid = true) ∧
    (∀ originalContent content : String,
      replaceInFile originalContent content (some "") = .ok content ∧
      replaceInFile originalContent content none = .ok content) ∧
    (∀ (fs : Fs) (p c orig : String), fsRead fs p = some orig →
      writeFileWithReplace p c (some "") fs = .ok (fsWrite fs p c)) := by
  refine ⟨?_, ?_, ?_, ?_⟩
  · intro o filePath
    simp [validateEditReachability, jsStrTruthy]
  · intro o filePath hp hig hacc
    simp [validateEditReachability, hp, hig, hacc, jsStrTruthy]
  · intro originalContent content
    constructor <;> simp [replaceInFile, jsStrTruthy]
  · intro fs p c orig hread
    simp [writeFileWithReplace, hread, replaceInFile, jsStrTruthy]

theorem blockFold_append (m : Bool) (r : String → String) (st : BlockState)
    (xs ys : List String) :
    blockFold m r st (xs ++ ys) =
      match blockFold m r st xs with
      | .error e => .error e
      | .ok st' => blockFold m r st' ys := by
  induction xs generalizing st with
  | nil => simp [blockFold]
  | cons l rest ih =>
    simp only [List.cons_append, blockFold]
    cases blockStep m r st l with
    | error e => rfl
    | ok st' => exact ih st'

/-- C5: format detection in the response parser.  A `SyntaxError` from the
JSON5 library (`jparse _ = none`) is swallowed: `tryParseAsJson` returns the
empty list and `parseAiResponse` falls through to delimited parsing; a text
that parses as JSON but fails schema validation makes `tryParseAsJson`
throw (distinct from the not-JSON case); the concrete JSON text yields
exactly the one `response` operation and `"not json at all"` yields the
empty list without throwing. -/
theorem parseAiResponse_format_detection :
    (∀ (jparse : String → Option Json) (t : String),
      jparse (jsTrim t) = none → tryParseAsJson jparse t = .ok []) ∧
    (∀ (jparse : String → Option Json) (t : String) (v op : Json) (ops : List Json),
      jsonShaped (jsTrim t) = true → jparse (jsTrim t) = some v →
      jsonToOps v = op :: ops → validateOperationsJson (op :: ops) = false →
      tryParseAsJson jparse t = .error "JSON 验证失败") ∧
    (∀ (jparse : String → Option Json) (resolve : String → String) (s : String)
       (v m : Bool),
      jsTrim s ≠ "" → tryParseAsJson jparse (jsTrim s) = .ok [] →
      parseAiResponse jparse resolve s v m =
        parseDelimitedOperations resolve (jsTrim s) v m) ∧
    (parseAiResponse jsonParse id "[\x7b\"type\":\"response\",\"content\":\"x\"\x7d]" true false =
      [Json.obj [("type", Json.str "response"), ("content", Json.str "x")]]) ∧
    (parseAiResponse jsonParse id "not json at all" true false = []) := by
  refine ⟨?_, ?_, ?_, rfl, rfl⟩
  · intro jparse t hsyn
    simp only [tryParseAsJson]
    by_cases hsh : jsonShaped (jsTrim t) = true
    · simp [hsh, hsyn]
    · simp [hsh]
  · intro jparse t v op ops hsh hparse hops hval
    simp only [tryParseAsJson, hsh, not_true, if_false, hparse]
    rw [hops]
    simp [hval]
  · intro jparse resolve s v m hne hok
    simp only [parseAiResponse, if_neg hne, hok]

/-- Closed instance of C5: `"[invalid"` looks like JSON but fails to parse
(a SyntaxError), so the JSON attempt silently yields nothing and the parser
falls through to delimited mode; `"[\x7b\"type\":\"nonsense\"\x7d]"` parses as
JSON but fails schema validation and surfaces an error. -/
theorem parseAiResponse_format_detection_witness :
    (jsonParse (jsTrim "[invalid") = none ∧
     tryParseAsJson jsonParse "[invalid" = .ok []) ∧
    (jsTrim "[invalid" ≠ "" ∧
     parseAiResponse jsonParse id "[invalid" true false =
       parseDelimitedOperations id (jsTrim "[invalid") true false) ∧
    (jsonShaped (jsTrim "[\x7b\"type\":\"nonsense\"\x7d]") = true ∧
     tryParseAsJson jsonParse "[\x7b\"type\":\"nonsense\"\x7d]" = .error "JSON 验证失败") :=
  ⟨⟨rfl, parseAiResponse_format_detection.1 jsonParse "[invalid" rfl⟩,
   ⟨by decide,
    parseAiResponse_format_detection.2.2.1 jsonParse id "[invalid" true false (by decide)
      (parseAiResponse_format_detection.1 jsonParse "[invalid" rfl)⟩,
   ⟨rfl,
    parseAiResponse_format_detection.2.1 jsonParse "[\x7b\"type\":\"nonsense\"\x7d]"
      (Json.arr [Json.obj [("type", Json.str "nonsense")]])
      (Json.obj [("type", Json.str "nonsense")]) [] rfl rfl rfl rfl⟩⟩

/-- C6: nesting and termination of content blocks in
`parseSingleOperationBlock`.  A second start marker while a content block
is open is an error in strict mode and, in loose mode, auto-closes the open
block (assigning the collected lines to its lowercased field) and
continues capturing under the new identifier; an unterminated content
block at end of input is an error in strict mode and auto-closed in loose
mode (when the block has a `type`, the parse succeeds with the auto-closed
field). -/
theorem parseSingleOperationBlock_nesting (resolve : String → String) :
    (∀ (pre : List String) (l : String) (rest : List String) (st : BlockState)
       (k ident : String),
      blockFold false resolve initBlockState pre = .ok st →
      st.currentContentKey = some k →
      matchStartDelimiter (jsTrim l) = some ident →
      parseOperationLines false resolve (pre ++ l :: rest) =
        .error (nestedStartErr k (jsTrim l))) ∧
    (∀ (pre : List String) (l : String) (st : BlockState) (k ident : String),
      blockFold true resolve initBlockState pre = .ok st →
      st.currentContentKey = some k →
      matchStartDelimiter (jsTrim l) = some ident →
      blockFold true resolve initBlockState (pre ++ [l]) =
        .ok ⟨objInsert st.op (strToLower k) (.str (joinNl st.contentLines)),
             some ident, []⟩) ∧
    (∀ (ls : List String) (st : BlockState) (k : String),
      blockFold false resolve initBlockState ls = .ok st →
      st.currentContentKey = some k →
      ∃ e, parseOperationLines false resolve ls = .error e) ∧
    (∀ (ls : List String) (st : BlockState) (k : String),
      blockFold true resolve initBlockState ls = .ok st →
      st.currentContentKey = some k →
      jsonTruthy (objLookup st.op "type") = true →
      parseOperationLines true resolve ls =
        .ok (objInsert st.op (strToLower k) (.str (joinNl st.contentLines)))) ∧
    (∀ (loose : Bool) (s : String),
      parseSingleOperationBlock loose resolve s =
        parseOperationLines loose resolve (splitLinesNl s)) := by
  refine ⟨?_, ?_, ?_, ?_, fun loose s => rfl⟩
  · intro pre l rest st k ident hfold hcur hstart
    have hstep : blockStep false resolve st l = .error (nestedStartErr k (jsTrim l)) := by
      simp [blockStep, hstart, hcur]
    simp only [parseOperationLines, blockFold_append, hfold, blockFold, hstep]
  · intro pre l st k ident hfold hcur hstart
    have hstep : blockStep true resolve st l =
        .ok ⟨objInsert st.op (strToLower k) (.str (joinNl st.contentLines)),
             some ident, []⟩ := by
      simp only [blockStep, hstart, hcur, if_true]
    simp only [blockFold_append, hfold, blockFold, hstep]
  · intro ls st k hfold hcur
    simp only [parseOperationLines, hfold]
    by_cases htype : jsonTruthy (objLookup st.op "type") = true
    · refine ⟨"未关闭的内容块: '" ++ k ++ " START'", ?_⟩
      simp [blockFinish, htype, hcur]
    · refine ⟨"操作块缺少'type'属性", ?_⟩
      simp [blockFinish, htype, hcur]
  · intro ls st k hfold hcur htype
    simp only [parseOperationLines, hfold]
    simp [blockFinish, htype, hcur]

/-- Closed instance of C6: after `type: edit` and an open `content` block
holding `"abc"`, the line `--- find start ---` is a nested start marker:
strict mode fails with the nesting error, loose mode auto-closes `content`
and opens `find`. -/
theorem parseSingleOperationBlock_nesting_witness :
    (blockFold false id initBlockState ["type: edit", "--- content start ---", "abc"] =
       .ok ⟨[("type", Json.str "edit")], some "content", ["abc"]⟩ ∧
     matchStartDelimiter (jsTrim "--- find start ---") = some "find" ∧
     parseOperationLines false id
       ["type: edit", "--- content start ---", "abc", "--- find start ---"] =
       .error (nestedStartErr "content" (jsTrim "--- find start ---"))) ∧
    blockFold true id initBlockState
       ["type: edit", "--- content start ---", "abc", "--- find start ---"] =
       .ok ⟨objInsert [("type", Json.str "edit")] (strToLower "content")
              (.str (joinNl ["abc"])), some "find", []⟩ :=
  ⟨⟨rfl, rfl,
    (parseSingleOperationBlock_nesting id).1 ["type: edit", "--- content start ---", "abc"]
      "--- find start ---" [] ⟨[("type", Json.str "edit")], some "content", ["abc"]⟩
      "content" "find" rfl rfl rfl⟩,
   (parseSingleOperationBlock_nesting id).2.1 ["type: edit", "--- content start ---", "abc"]
     "--- find start ---" ⟨[("type", Json.str "edit")], some "content", ["abc"]⟩
     "content" "find" rfl rfl rfl⟩

theorem autoFixGo_calls_le (valid : List Json → Bool) (attempts : Nat → FixAttempt) :
    ∀ (r i : Nat), (autoFixGo valid attempts i r).2 ≤ r := by
  intro r
  induction r with
  | zero => intro i; simp [autoFixGo]
  | succ r ih =>
    intro i
    simp only [autoFixGo]
    cases attempts i with
    | throwErr => simpa using Nat.succ_le_succ (ih (i + 1))
    | reply ops =>
      cases ops with
      | nil => simpa using Nat.succ_le_succ (ih (i + 1))
      | cons o os =>
        by_cases hv : valid (filterFileOps (o :: os)) = true
        · simp [hv]
        · simp only [hv, if_false]
          simpa using Nat.succ_le_succ (ih (i + 1))

theorem autoFixGo_success (valid : List Json → Bool) (attempts : Nat → FixAttempt) :
    ∀ (r i j : Nat) (ops : List Json),
      i ≤ j → j < i + r →
      (∀ t, i ≤ t → t < j → attemptFails valid (attempts t) = true) →
      attempts j = .reply ops → ops ≠ [] → valid (filterFileOps ops) = true →
      autoFixGo valid attempts i r = (some (filterFileOps ops), j + 1 - i) := by
  intro r
  induction r with
  | zero => intro i j ops hij hlt; omega
  | succ r ih =>
    intro i j ops hij hlt hfails hatt hne hv
    by_cases heq : i = j
    · subst heq
      simp only [autoFixGo, hatt]
      cases ops with
      | nil => exact absurd rfl hne
      | cons o os =>
        simp only [hv, if_true]
        have : i + 1 - i = 1 := by omega
        rw [this]
    · have hlt' : i < j := Nat.lt_of_le_of_ne hij heq
      have hrec : autoFixGo valid attempts (i + 1) r =
          (some (filterFileOps ops), j + 1 - (i + 1)) :=
        ih (i + 1) j ops hlt' (by omega) (fun t ht1 ht2 => hfails t (by omega) ht2)
          hatt hne hv
      have hfi : attemptFails valid (attempts i) = true :=
        hfails i (Nat.le_refl i) hlt'
      cases ha : attempts i with
      | throwErr =>
        simp only [autoFixGo, ha, hrec]
        rw [Prod.mk.injEq]
        exact ⟨rfl, by omega⟩
      | reply ops' =>
        cases ops' with
        | nil =>
          simp only [autoFixGo, ha, hrec]
          rw [Prod.mk.injEq]
          exact ⟨rfl, by omega⟩
        | cons o' os' =>
          have hv' : valid (filterFileOps (o' :: os')) = false := by
            have h := hfi
            rw [ha] at h
            simpa [attemptFails] using h
          simp only [autoFixGo, ha, hv', Bool.false_eq_true, if_false, hrec]
          rw [Prod.mk.injEq]
          exact ⟨rfl, by omega⟩

theorem autoFixGo_exhaust (valid : List Json → Bool) (attempts : Nat → FixAttempt) :
    ∀ (r i : Nat),
      (∀ t, i ≤ t → t < i + r → attemptFails valid (attempts t) = true) →
      autoFixGo valid attempts i r = (none, r) := by
  intro r
  induction r with
  | zero => intro i _; rfl
  | succ r ih =>
    intro i hfails
    have hrec : autoFixGo valid attempts (i + 1) r = (none, r) :=
      ih (i + 1) (fun t ht1 ht2 => hfails t (by omega) (by omega))
    have hfi : attemptFails valid (attempts i) = true :=
      hfails i (Nat.le_refl i) (by omega)
    cases ha : attempts i with
    | throwErr => simp only [autoFixGo, ha, hrec]
    | reply ops' =>
      cases ops' with
      | nil => simp only [autoFixGo, ha, hrec]
      | cons o' os' =>
        have hv' : valid (filterFileOps (o' :: os')) = false := by
          have h := hfi
          rw [ha] at h
          simpa [attemptFails] using h
        simp only [autoFixGo, ha, hv', Bool.false_eq_true, if_false, hrec]

/-- C8: the auto-fix loop calls the model at most `maxRetries` times
(default 3); the first attempt (1-based `j`) whose parsed reply is
nonempty and whose non-`response` operations pass reachability validation
returns those operations immediately after exactly `j` calls; a reply
parsing to zero operations counts as a failed attempt; and when every
attempt within the budget fails (throws, parses to zero operations, or
fails validation), the result is `null` after `maxRetries` calls. -/
theorem autoFixOperations_retry_contract (valid : List Json → Bool)
    (attempts : Nat → FixAttempt) (maxRetries : Nat) :
    (autoFixOperations valid attempts maxRetries).2 ≤ maxRetries ∧
    (∀ (j : Nat) (ops : List Json), 1 ≤ j → j ≤ maxRetries →
      (∀ t, 1 ≤ t → t < j → attemptFails valid (attempts t) = true) →
      attempts j = .reply ops → ops ≠ [] → valid (filterFileOps ops) = true →
      autoFixOperations valid attempts maxRetries = (some (filterFileOps ops), j)) ∧
    attemptFails valid (.reply []) = true ∧
    ((∀ t, 1 ≤ t → t ≤ maxRetries → attemptFails valid (attempts t) = true) →
      autoFixOperations valid attempts maxRetries = (none, maxRetries)) ∧
    autoFixDefaultMaxRetries = 3 := by
  refine ⟨autoFixGo_calls_le valid attempts maxRetries 1, ?_, rfl, ?_, rfl⟩
  · intro j ops h1 hm hfails hatt hne hv
    have h := autoFixGo_success valid attempts maxRetries 1 j ops h1 (by omega)
      hfails hatt hne hv
    have hj : j + 1 - 1 = j := by omega
    rw [hj] at h
    exact h
  · intro hfails
    exact autoFixGo_exhaust valid attempts maxRetries 1
      (fun t ht1 ht2 => hfails t ht1 (by omega))

/-- Closed instance of C8 with `maxRetries = 3`: attempt 1 parses to zero
operations (a failed attempt that is retried), attempt 2 parses to a
`response` operation plus a `create` operation; the loop filters out the
`response` entry and returns the remainder after exactly 2 of the 3
allowed calls. -/
theorem autoFixOperations_retry_contract_witness :
    ((fun t => if t = 1 then FixAttempt.reply [] else
        FixAttempt.reply
          [Json.obj [("type", Json.str "response"), ("content", Json.str "ok")],
           Json.obj [("type", Json.str "create"), ("filePath", Json.str "/n.txt"),
             ("content", Json.str "z")]]) 2 =
      FixAttempt.reply
        [Json.obj [("type", Json.str "response"), ("content", Json.str "ok")],
         Json.obj [("type", Json.str "create"), ("filePath", Json.str "/n.txt"),
           ("content", Json.str "z")]]) ∧
    (filterFileOps
        [Json.obj [("type", Json.str "response"), ("content", Json.str "ok")],
         Json.obj [("type", Json.str "create"), ("filePath", Json.str "/n.txt"),
           ("content", Json.str "z")]] =
      [Json.obj [("type", Json.str "create"), ("filePath", Json.str "/n.txt"),
         ("content", Json.str "z")]]) ∧
    autoFixOperations (fun _ => true)
      (fun t => if t = 1 then FixAttempt.reply [] else
        FixAttempt.reply
          [Json.obj [("type", Json.str "response"), ("content", Json.str "ok")],
           Json.obj [("type", Json.str "create"), ("filePath", Json.str "/n.txt"),
             ("content", Json.str "z")]]) 3 =
      (some (filterFileOps
        [Json.obj [("type", Json.str "response"), ("content", Json.str "ok")],
         Json.obj [("type", Json.str "create"), ("filePath", Json.str "/n.txt"),
           ("content", Json.str "z")]]), 2) :=
  ⟨rfl, rfl,
   (autoFixOperations_retry_contract (fun _ => true)
      (fun t => if t = 1 then FixAttempt.reply [] else
        FixAttempt.reply
          [Json.obj [("type", Json.str "response"), ("content", Json.str "ok")],
           Json.obj [("type", Json.str "create"), ("filePath", Json.str "/n.txt"),
             ("content", Json.str "z")]]) 3).2.1 2
     [Json.obj [("type", Json.str "response"), ("content", Json.str "ok")],
      Json.obj [("type", Json.str "create"), ("filePath", Json.str "/n.txt"),
        ("content", Json.str "z")]]
     (by omega) (by omega)
     (by
       intro t ht1 ht2
       have : t = 1 := by omega
       subst this
       rfl)
     rfl (fun h => List.noConfusion h) rfl⟩

theorem typeIs_ne {o : List (String × Json)} {t t' : String}
    (h : typeIs o t = true) (hne : t' ≠ t) : typeIs o t' = false := by
  unfold typeIs at h ⊢
  generalize hl : objLookup o "type" = x at h ⊢
  cases x with
  | none => exact Bool.noConfusion h
  | some v =>
    cases v with
    | str u =>
      simp only [decide_eq_true_eq] at h
      subst h
      simp only [decide_eq_false_iff_not]
      exact fun hc => hne hc.symm
    | num n => exact Bool.noConfusion h
    | jbool b => exact Bool.noConfusion h
    | null => exact Bool.noConfusion h
    | arr es => exact Bool.noConfusion h
    | obj fs => exact Bool.noConfusion h

/-- C9 counterexample: the claim says a user-cancelled diff leaves its
operation untouched in the resulting plan, but cancelling the diff of a
`create` operation drops it: the one-operation plan reviews to the empty
plan. -/
theorem reviewChangesInDetail_cancel_removes_create :
    reviewChangesInDetail (fun _ => true) (fun _ => .ok "")
        [[("type", Json.str "create"), ("filePath", Json.str "/a.txt"),
          ("content", Json.str "hi")]]
        (fun _ => DiffOutcome.cancelled) = [] ∧
    ([] : List (List (String × Json))) ≠
      [[("type", Json.str "create"), ("filePath", Json.str "/a.txt"),
        ("content", Json.str "hi")]] :=
  ⟨rfl, fun h => List.noConfusion h⟩

/-- C9 (amended): in the detailed diff review, a saved diff on a
`writeWithReplace` (the tree's edit operation) whose preview succeeded
updates `content` and removes the stale `find` field (keeping the original
when the update fails schema validation; line-range fields are only
stripped in the `create` branch); a cancelled `writeWithReplace` diff
leaves the operation untouched; a saved `create` diff updates `content`
and strips `startLine`/`endLine`, while a cancelled `create` diff removes
the operation from the plan; all other operation types (`move`, `delete`)
pass through unchanged; and a plan failing the schema-validation gate is
returned unmodified. -/
theorem reviewChangesInDetail_step_behavior
    (validOp : List (String × Json) → Bool)
    (readFs : String → Except String String) :
    (∀ (o : List (String × Json)) (orig full s : String),
      typeIs o "writeWithReplace" = true →
      readFs (strFieldOr o "filePath") = .ok orig →
      replaceInFile orig (strFieldOr o "content") (optStrFieldVal o "find") = .ok full →
      validOp (objRemove (objInsert o "content" (.str s)) "find") = true →
      reviewStep validOp readFs o (.saved s) =
        [objRemove (objInsert o "content" (.str s)) "find"]) ∧
    (∀ (o : List (String × Json)) (orig full : String),
      typeIs o "writeWithReplace" = true →
      readFs (strFieldOr o "filePath") = .ok orig →
      replaceInFile orig (strFieldOr o "content") (optStrFieldVal o "find") = .ok full →
      reviewStep validOp readFs o .cancelled = [o]) ∧
    (∀ (o : List (String × Json)), typeIs o "create" = true →
      reviewStep validOp readFs o .cancelled = []) ∧
    (∀ (o : List (String × Json)) (s : String), typeIs o "create" = true →
      validOp (objRemove (objRemove (objInsert o "content" (.str s)) "startLine")
        "endLine") = true →
      reviewStep validOp readFs o (.saved s) =
        [objRemove (objRemove (objInsert o "content" (.str s)) "startLine") "endLine"]) ∧
    (∀ (o : List (String × Json)) (d : DiffOutcome),
      typeIs o "create" = false → typeIs o "writeWithReplace" = false →
      reviewStep validOp readFs o d = [o]) ∧
    (∀ ops diff, ops.all validOp = false →
      reviewChangesInDetail validOp readFs ops diff = ops) := by
  refine ⟨?_, ?_, ?_, ?_, ?_, ?_⟩
  · intro o orig full s hty hread hrepl hvalid
    have hc : typeIs o "create" = false := typeIs_ne hty (by decide)
    simp [reviewStep, hc, hty, hread, hrepl, hvalid]
  · intro o orig full hty hread hrepl
    have hc : typeIs o "create" = false := typeIs_ne hty (by decide)
    simp [reviewStep, hc, hty, hread, hrepl]
  · intro o hty
    simp [reviewStep, hty]
  · intro o s hty hvalid
    simp [reviewStep, hty, hvalid]
  · intro o d hc hw
    simp [reviewStep, hc, hw]
  · intro ops diff h
    simp [reviewChangesInDetail, h]

/-- Closed instance of the amended C9: a cancelled diff on a
`writeWithReplace` operation keeps it, and a saved diff replaces its
content and drops `find`. -/
theorem reviewChangesInDetail_step_behavior_witness :
    (typeIs [("type", Json.str "writeWithReplace"), ("filePath", Json.str "/a.txt"),
        ("content", Json.str "bar"), ("find", Json.str "foo")] "writeWithReplace" = true ∧
     replaceInFile "foo\nbaz\n"
        (strFieldOr [("type", Json.str "writeWithReplace"), ("filePath", Json.str "/a.txt"),
          ("content", Json.str "bar"), ("find", Json.str "foo")] "content")
        (optStrFieldVal [("type", Json.str "writeWithReplace"), ("filePath", Json.str "/a.txt"),
          ("content", Json.str "bar"), ("find", Json.str "foo")] "find") = .ok "bar\nbaz\n") ∧
    reviewStep (fun _ => true) (fun _ => .ok "foo\nbaz\n")
      [("type", Json.str "writeWithReplace"), ("filePath", Json.str "/a.txt"),
        ("content", Json.str "bar"), ("find", Json.str "foo")] .cancelled =
      [[("type", Json.str "writeWithReplace"), ("filePath", Json.str "/a.txt"),
        ("content", Json.str "bar"), ("find", Json.str "foo")]] ∧
    reviewStep (fun _ => true) (fun _ => .ok "foo\nbaz\n")
      [("type", Json.str "writeWithReplace"), ("filePath", Json.str "/a.txt"),
        ("content", Json.str "bar"), ("find", Json.str "foo")] (.saved "edited") =
      [objRemove (objInsert
        [("type", Json.str "writeWithReplace"), ("filePath", Json.str "/a.txt"),
          ("content", Json.str "bar"), ("find", Json.str "foo")]
        "content" (.str "edited")) "find"] :=
  ⟨⟨rfl, rfl⟩,
   (reviewChangesInDetail_step_behavior (fun _ => true) (fun _ => .ok "foo\nbaz\n")).2.1
     [("type", Json.str "writeWithReplace"), ("filePath", Json.str "/a.txt"),
       ("content", Json.str "bar"), ("find", Json.str "foo")]
     "foo\nbaz\n" "bar\nbaz\n" rfl rfl rfl,
   (reviewChangesInDetail_step_behavior (fun _ => true) (fun _ => .ok "foo\nbaz\n")).1
     [("type", Json.str "writeWithReplace"), ("filePath", Json.str "/a.txt"),
       ("content", Json.str "bar"), ("find", Json.str "foo")]
     "foo\nbaz\n" "bar\nbaz\n" "edited" rfl rfl rfl rfl⟩

/-- Closed instance of C10: the empty-find edit on a one-file filesystem
overwrites the whole file. -/
theorem edit_empty_find_treated_as_absent_witness :
    fsRead [("/a.txt", "old")] "/a.txt" = some "old" ∧
    writeFileWithReplace "/a.txt" "new" (some "") [("/a.txt", "old")] =
      .ok (fsWrite [("/a.txt", "old")] "/a.txt" "new") ∧
    (validateEditReachability
        ⟨fun _ => .ok (), fun _ => .ok "old", fun _ => false, id, id⟩
        "/a.txt" (some "")).isValid = true :=
  ⟨by decide,
   edit_empty_find_treated_as_absent.2.2.2 [("/a.txt", "old")] "/a.txt" "new" "old"
     (by decide),
   edit_empty_find_treated_as_absent.2.1
     ⟨fun _ => .ok (), fun _ => .ok "old", fun _ => false, id, id⟩
     "/a.txt" (by decide) rfl rfl⟩

end Mai
